import Mathlib

/-!
Verification of the velociraptor document-tree library.

This file gives a shallow embedding of the core of the repository:
the page chunker (`src/processors/document_splitter.py`,
`split_pages_into_chunks`), the tree builder (`build_tree_structure`,
`create_parent_nodes`, `create_leaf_nodes`), the node and tree model
(`src/models/document_node.py`, `src/models/document_tree.py`), the
navigator (`src/navigation/tree_navigator.py`) and the similarity
ranker (`src/ai/embeddings.py`).  Python `while` loops and the
recursions that chase identifiers through an external store are
embedded with an explicit fuel parameter; Python `float` values are
embedded as real numbers, with embedding vectors carried as lists of
rationals so that concrete test data stays decidable.
-/

namespace Velociraptor

/-! ### Chunker (`DocumentSplitter.split_pages_into_chunks`) -/

/-- A page as produced by `extract_text_from_pdf`: the chunker reads only
the `page_number` and `text` keys of the per-page dictionaries. -/
structure Page where
  page_number : Nat
  text : String
deriving DecidableEq

/-- The chunk dictionary built by `split_pages_into_chunks`. -/
structure Chunk where
  page_start : Nat
  page_end : Nat
  text : String
  char_count : Nat
  page_count : Nat
deriving DecidableEq

/-- The three constructor parameters stored by `DocumentSplitter.__init__`. -/
structure DocumentSplitter where
  max_chunk_size : Nat
  min_chunk_size : Nat
  overlap_pages : Nat
deriving DecidableEq

/-- `chunk_end = min(i + self.max_chunk_size, total_pages)`. -/
def chunkEnd (mcs total i : Nat) : Nat := min (i + mcs) total

/-- The update of the scan index at the end of the loop body:
`i = max(i + 1, chunk_end - self.overlap_pages) if self.overlap_pages > 0 else chunk_end`.
Natural subtraction truncates at zero where Python would produce a negative
number, but `max (i+1) _` yields `i+1` in exactly those cases, so the value
agrees with the Python expression. -/
def nextIndex (mcs ov total i : Nat) : Nat :=
  if 0 < ov then max (i + 1) (chunkEnd mcs total i - ov) else chunkEnd mcs total i

/-- The chunk dictionary built from `chunk_pages = pages[i:chunk_end]`.
In the source `chunk_pages[0]` and `chunk_pages[-1]` are only evaluated with a
non-empty slice (the loop guard gives `i < total`); `getD 0` supplies a value
for the unreachable empty case. -/
def mkChunk (pages : List Page) (i e : Nat) : Chunk :=
  let slice := (pages.drop i).take (e - i)
  { page_start := (slice.head?.map Page.page_number).getD 0,
    page_end := (slice.getLast?.map Page.page_number).getD 0,
    text := String.intercalate "\n\n" (slice.map Page.text),
    char_count := (String.intercalate "\n\n" (slice.map Page.text)).length,
    page_count := slice.length }

/-- The `while i < total_pages` loop of `split_pages_into_chunks`, with an
explicit fuel parameter; with `max_chunk_size > 0` a fuel of `total_pages`
always suffices (proved below). -/
def splitLoop (mcs ov : Nat) (pages : List Page) : Nat → Nat → List Chunk
  | 0, _ => []
  | fuel + 1, i =>
    if i < pages.length then
      mkChunk pages i (chunkEnd mcs pages.length i) ::
        splitLoop mcs ov pages fuel (nextIndex mcs ov pages.length i)
    else []

/-- `DocumentSplitter.split_pages_into_chunks`.  The `min_chunk_size` field is
stored by `__init__` but never read here, exactly as in the source. -/
def DocumentSplitter.split_pages_into_chunks (s : DocumentSplitter)
    (pages : List Page) : List Chunk :=
  if pages = [] then []
  else splitLoop s.max_chunk_size s.overlap_pages pages pages.length 0

/-- The sequence of start indices visited by the loop. -/
def startIndices (mcs ov total : Nat) : Nat → Nat → List Nat
  | 0, _ => []
  | fuel + 1, i =>
    if i < total then i :: startIndices mcs ov total fuel (nextIndex mcs ov total i)
    else []

/-- Pages numbered as `extract_text_from_pdf` numbers them
(`page_number = page_num + 1`, counting from 1). -/
def mkPagesAux (k : Nat) : List String → List Page
  | [] => []
  | t :: ts => { page_number := k, text := t } :: mkPagesAux (k + 1) ts

/-- The canonical page list for a list of page texts, numbered from 1. -/
def mkPages (texts : List String) : List Page := mkPagesAux 1 texts

lemma lt_chunkEnd (mcs total i : Nat) (hm : 0 < mcs) (hi : i < total) :
    i < chunkEnd mcs total i := by
  unfold chunkEnd
  omega

lemma lt_nextIndex (mcs ov total i : Nat) (hm : 0 < mcs) (hi : i < total) :
    i < nextIndex mcs ov total i := by
  unfold nextIndex
  have h := lt_chunkEnd mcs total i hm hi
  by_cases hov : 0 < ov
  · simp only [if_pos hov]
    omega
  · simp only [if_neg hov]
    omega

lemma chunkEnd_le (mcs total i : Nat) : chunkEnd mcs total i ≤ total :=
  Nat.min_le_right _ _

lemma nextIndex_le_chunkEnd_or (mcs ov total i : Nat) :
    nextIndex mcs ov total i ≤ max (i + 1) (chunkEnd mcs total i) := by
  unfold nextIndex
  by_cases hov : 0 < ov
  · simp only [if_pos hov]
    omega
  · simp only [if_neg hov]
    omega

lemma splitLoop_of_ge (mcs ov : Nat) (pages : List Page) {i : Nat}
    (h : ¬ i < pages.length) : ∀ fuel, splitLoop mcs ov pages fuel i = [] := by
  intro fuel
  cases fuel with
  | zero => rfl
  | succ f => simp [splitLoop, h]

lemma splitLoop_fuel_irrelevant (mcs ov : Nat) (pages : List Page) (hm : 0 < mcs) :
    ∀ (d i f₁ f₂ : Nat), pages.length - i ≤ d →
      pages.length - i ≤ f₁ → pages.length - i ≤ f₂ →
      splitLoop mcs ov pages f₁ i = splitLoop mcs ov pages f₂ i := by
  intro d
  induction d with
  | zero =>
    intro i f₁ f₂ hd _ _
    have hi : ¬ i < pages.length := by omega
    rw [splitLoop_of_ge mcs ov pages hi, splitLoop_of_ge mcs ov pages hi]
  | succ d ih =>
    intro i f₁ f₂ hd h₁ h₂
    by_cases hi : i < pages.length
    · have hnext : i < nextIndex mcs ov pages.length i :=
        lt_nextIndex mcs ov pages.length i hm hi
      cases f₁ with
      | zero => omega
      | succ f₁ =>
        cases f₂ with
        | zero => omega
        | succ f₂ =>
          simp only [splitLoop, if_pos hi]
          congr 1
          exact ih (nextIndex mcs ov pages.length i) f₁ f₂ (by omega) (by omega) (by omega)
    · rw [splitLoop_of_ge mcs ov pages hi, splitLoop_of_ge mcs ov pages hi]

/-- Claim C9: for every finite page sequence and parameters with
`max_chunk_size > 0`, the scan index strictly increases on every iteration of
`split_pages_into_chunks`, and therefore the loop terminates: a fuel of
`total - i` steps (in particular `total` steps from the start) already
computes the final result, and adding any further fuel does not change it —
including when `overlap_pages ≥ max_chunk_size`. -/
theorem chunker_terminates (mcs ov : Nat) (pages : List Page) (hm : 0 < mcs) :
    (∀ i, i < pages.length → i < nextIndex mcs ov pages.length i) ∧
    (∀ i f₁ f₂, pages.length - i ≤ f₁ → pages.length - i ≤ f₂ →
      splitLoop mcs ov pages f₁ i = splitLoop mcs ov pages f₂ i) := by
  refine ⟨fun i hi => lt_nextIndex mcs ov pages.length i hm hi, fun i f₁ f₂ h₁ h₂ => ?_⟩
  exact splitLoop_fuel_irrelevant mcs ov pages hm (pages.length - i) i f₁ f₂ le_rfl h₁ h₂

/-- Witness for C9 at a concrete input with `overlap_pages ≥ max_chunk_size`:
two pages, `max_chunk_size = 1`, `overlap_pages = 3`. -/
theorem chunker_terminates_witness :
    (0 : Nat) < nextIndex 1 3 2 0 ∧
      splitLoop 1 3 (mkPages ["a", "b"]) 2 0 = splitLoop 1 3 (mkPages ["a", "b"]) 9 0 := by
  have h := chunker_terminates 1 3 (mkPages ["a", "b"]) (by decide)
  exact ⟨h.1 0 (by decide), h.2 0 2 9 (by decide) (by decide)⟩

lemma splitLoop_eq_map_startIndices (mcs ov : Nat) (pages : List Page) :
    ∀ fuel i, splitLoop mcs ov pages fuel i =
      (startIndices mcs ov pages.length fuel i).map
        (fun j => mkChunk pages j (chunkEnd mcs pages.length j)) := by
  intro fuel
  induction fuel with
  | zero => intro i; rfl
  | succ f ih =>
    intro i
    by_cases hi : i < pages.length
    · simp [splitLoop, startIndices, hi, ih]
    · simp [splitLoop, startIndices, hi]

lemma mem_startIndices_lt (mcs ov total : Nat) :
    ∀ (fuel i s : Nat), s ∈ startIndices mcs ov total fuel i → s < total := by
  intro fuel
  induction fuel with
  | zero => intro i s h; simp [startIndices] at h
  | succ f ih =>
    intro i s h
    by_cases hi : i < total
    · rw [startIndices, if_pos hi] at h
      rcases List.mem_cons.mp h with h | h
      · omega
      · exact ih _ _ h
    · simp [startIndices, hi] at h

lemma mem_startIndices_le (mcs ov total : Nat) (hm : 0 < mcs) :
    ∀ (fuel i s : Nat), s ∈ startIndices mcs ov total fuel i → i ≤ s := by
  intro fuel
  induction fuel with
  | zero => intro i s h; simp [startIndices] at h
  | succ f ih =>
    intro i s h
    by_cases hi : i < total
    · rw [startIndices, if_pos hi] at h
      rcases List.mem_cons.mp h with h | h
      · omega
      · have h1 := ih _ _ h
        have h2 := lt_nextIndex mcs ov total i hm hi
        omega
    · simp [startIndices, hi] at h

lemma startIndices_sorted (mcs ov total : Nat) (hm : 0 < mcs) :
    ∀ fuel i, List.Pairwise (· < ·) (startIndices mcs ov total fuel i) := by
  intro fuel
  induction fuel with
  | zero => intro i; simp [startIndices]
  | succ f ih =>
    intro i
    by_cases hi : i < total
    · rw [startIndices, if_pos hi]
      refine List.pairwise_cons.mpr ⟨fun s hs => ?_, ih _⟩
      have h1 := mem_startIndices_le mcs ov total hm _ _ _ hs
      have h2 := lt_nextIndex mcs ov total i hm hi
      omega
    · simp [startIndices, hi]

lemma startIndices_cover (mcs ov total : Nat) (hm : 0 < mcs) :
    ∀ (fuel i j : Nat), i ≤ j → j < total → total - i ≤ fuel →
      ∃ s ∈ startIndices mcs ov total fuel i, s ≤ j ∧ j < chunkEnd mcs total s := by
  intro fuel
  induction fuel with
  | zero => intro i j hij hj hf; omega
  | succ f ih =>
    intro i j hij hj hf
    have hi : i < total := by omega
    rw [startIndices, if_pos hi]
    by_cases hje : j < chunkEnd mcs total i
    · exact ⟨i, List.mem_cons_self _ _, hij, hje⟩
    · have hce : chunkEnd mcs total i ≤ j := by omega
      have hni : nextIndex mcs ov total i ≤ j := by
        have h1 : i + 1 ≤ j := by
          have h2 := lt_chunkEnd mcs total i hm hi
          omega
        have h3 := nextIndex_le_chunkEnd_or mcs ov total i
        omega
      have hprog := lt_nextIndex mcs ov total i hm hi
      obtain ⟨s, hs, hsj, hsc⟩ :=
        ih (nextIndex mcs ov total i) j hni hj (by omega)
      exact ⟨s, List.mem_cons_of_mem _ hs, hsj, hsc⟩

lemma mkPagesAux_getElem? (ts : List String) :
    ∀ (k j : Nat), (mkPagesAux k ts)[j]? = ts[j]?.map (fun t => Page.mk (k + j) t) := by
  induction ts with
  | nil => intro k j; simp [mkPagesAux]
  | cons t ts ih =>
    intro k j
    cases j with
    | zero => simp [mkPagesAux]
    | succ j =>
      have harith : k + 1 + j = k + (j + 1) := by omega
      simp only [mkPagesAux, List.getElem?_cons_succ, ih (k + 1) j, harith]

lemma mkPages_length (texts : List String) : (mkPages texts).length = texts.length := by
  unfold mkPages
  generalize 1 = k
  induction texts generalizing k with
  | nil => rfl
  | cons t ts ih => simp [mkPagesAux, ih]

lemma mkPages_getElem? (texts : List String) (j : Nat) :
    (mkPages texts)[j]? = texts[j]?.map (fun t => Page.mk (j + 1) t) := by
  rw [mkPages, mkPagesAux_getElem?]
  simp [Nat.add_comm]

lemma mkChunk_page_start (texts : List String) (s e : Nat)
    (hs : s < texts.length) (hse : s < e) :
    (mkChunk (mkPages texts) s e).page_start = s + 1 := by
  have hlen : (mkPages texts).length = texts.length := mkPages_length texts
  have hhead : (((mkPages texts).drop s).take (e - s)).head? =
      (mkPages texts)[s]? := by
    rw [List.head?_eq_getElem?, List.getElem?_take, if_pos (by omega),
      List.getElem?_drop, Nat.add_zero]
  obtain ⟨t, ht⟩ : ∃ t, texts[s]? = some t := by
    exact ⟨texts[s], (List.getElem?_eq_some.mpr ⟨hs, rfl⟩)⟩
  simp [mkChunk, hhead, mkPages_getElem?, ht]

lemma mkChunk_page_end (texts : List String) (s e : Nat)
    (hs : s < e) (he : e ≤ texts.length) :
    (mkChunk (mkPages texts) s e).page_end = e := by
  have hlen : (mkPages texts).length = texts.length := mkPages_length texts
  have hslice : (((mkPages texts).drop s).take (e - s)).length = e - s := by
    simp [List.length_take, List.length_drop, hlen]
    omega
  have hlast : (((mkPages texts).drop s).take (e - s)).getLast? =
      (mkPages texts)[e - 1]? := by
    rw [List.getLast?_eq_getElem?, hslice, List.getElem?_take, if_pos (by omega),
      List.getElem?_drop]
    congr 1
    omega
  obtain ⟨t, ht⟩ : ∃ t, texts[e - 1]? = some t := by
    exact ⟨texts[e - 1], (List.getElem?_eq_some.mpr ⟨by omega, rfl⟩)⟩
  have : (mkChunk (mkPages texts) s e).page_end = (e - 1) + 1 := by
    simp [mkChunk, hlast, mkPages_getElem?, ht]
  omega

/-- Claim C5: for a non-empty page sequence and `max_chunk_size > 0`, the
chunks produced by `split_pages_into_chunks` are exactly the chunks built at
the start indices generated by `nextIndex` from index 0 (the chunk starting
at index `i` covering pages `[i, min(i + max_chunk_size, total))`), they
cover every page at least once, and they preserve page order. -/
theorem split_covers_and_ordered (sp : DocumentSplitter) (texts : List String)
    (hne : texts ≠ []) (hm : 0 < sp.max_chunk_size) :
    sp.split_pages_into_chunks (mkPages texts) =
      (startIndices sp.max_chunk_size sp.overlap_pages (mkPages texts).length
          (mkPages texts).length 0).map
        (fun j => mkChunk (mkPages texts) j
          (chunkEnd sp.max_chunk_size (mkPages texts).length j)) ∧
    (∀ j, j < texts.length →
      ∃ c ∈ sp.split_pages_into_chunks (mkPages texts),
        c.page_start ≤ j + 1 ∧ j + 1 ≤ c.page_end) ∧
    List.Pairwise (fun a b => a.page_start < b.page_start)
      (sp.split_pages_into_chunks (mkPages texts)) := by
  have hlenp : (mkPages texts).length = texts.length := mkPages_length texts
  have hpne : mkPages texts ≠ [] := by
    intro h
    apply hne
    have := mkPages_length texts
    rw [h] at this
    exact List.length_eq_zero.mp this.symm
  have hsplit : sp.split_pages_into_chunks (mkPages texts) =
      splitLoop sp.max_chunk_size sp.overlap_pages (mkPages texts)
        (mkPages texts).length 0 := by
    simp [DocumentSplitter.split_pages_into_chunks, hpne]
  have hmap := splitLoop_eq_map_startIndices sp.max_chunk_size sp.overlap_pages
    (mkPages texts) (mkPages texts).length 0
  refine ⟨by rw [hsplit, hmap], ?_, ?_⟩
  · intro j hj
    obtain ⟨s, hs, hsj, hsc⟩ := startIndices_cover sp.max_chunk_size sp.overlap_pages
      (mkPages texts).length hm (mkPages texts).length 0 j (Nat.zero_le j)
      (by omega) (by omega)
    refine ⟨mkChunk (mkPages texts) s
      (chunkEnd sp.max_chunk_size (mkPages texts).length s), ?_, ?_, ?_⟩
    · rw [hsplit, hmap]
      exact List.mem_map_of_mem _ hs
    · have hstart := mkChunk_page_start texts s
        (chunkEnd sp.max_chunk_size (mkPages texts).length s) (by omega) (by omega)
      omega
    · have hle := chunkEnd_le sp.max_chunk_size (mkPages texts).length s
      have hend := mkChunk_page_end texts s
        (chunkEnd sp.max_chunk_size (mkPages texts).length s) (by omega) (by omega)
      omega
  · rw [hsplit, hmap]
    rw [List.pairwise_map]
    have hsorted := startIndices_sorted sp.max_chunk_size sp.overlap_pages
      (mkPages texts).length hm (mkPages texts).length 0
    refine List.Pairwise.imp_of_mem ?_ hsorted
    intro a b ha hb hab
    have haT := mem_startIndices_lt sp.max_chunk_size sp.overlap_pages
      (mkPages texts).length _ _ _ ha
    have hbT := mem_startIndices_lt sp.max_chunk_size sp.overlap_pages
      (mkPages texts).length _ _ _ hb
    have h1 := mkChunk_page_start texts a
      (chunkEnd sp.max_chunk_size (mkPages texts).length a) (by omega)
      (lt_chunkEnd sp.max_chunk_size (mkPages texts).length a hm haT)
    have h2 := mkChunk_page_start texts b
      (chunkEnd sp.max_chunk_size (mkPages texts).length b) (by omega)
      (lt_chunkEnd sp.max_chunk_size (mkPages texts).length b hm hbT)
    omega

/-- Witness for C5: three pages, `max_chunk_size = 2`, `overlap_pages = 1`. -/
theorem split_covers_and_ordered_witness :
    ∃ c ∈ DocumentSplitter.split_pages_into_chunks ⟨2, 1, 1⟩ (mkPages ["a", "b", "c"]),
      c.page_start ≤ 2 ∧ 2 ≤ c.page_end := by
  have h := split_covers_and_ordered ⟨2, 1, 1⟩ ["a", "b", "c"] (by decide) (by decide)
  exact h.2.1 1 (by decide)

/-- Claim C10: `min_chunk_size` has no observable effect — two runs of
`split_pages_into_chunks` that differ only in the `min_chunk_size` parameter
produce identical chunk sequences, and in particular (11 pages with
`max_chunk_size = 10`, `overlap_pages = 0`, `min_chunk_size = 5`) a trailing
chunk may consist of a single page regardless of `min_chunk_size`. -/
theorem min_chunk_size_no_effect :
    (∀ (pages : List Page) (mcs ov m₁ m₂ : Nat),
      DocumentSplitter.split_pages_into_chunks ⟨mcs, m₁, ov⟩ pages =
        DocumentSplitter.split_pages_into_chunks ⟨mcs, m₂, ov⟩ pages) ∧
    ((DocumentSplitter.split_pages_into_chunks ⟨10, 5, 0⟩
        (mkPages (List.replicate 11 "t"))).getLast?.map Chunk.page_count = some 1) := by
  constructor
  · intro pages mcs ov m₁ m₂
    rfl
  · rfl

/-! ### Node and tree model (`document_node.py`, `document_tree.py`) -/

/-- `NodeType` enumeration. -/
inductive NodeType where
  | root
  | branch
  | leaf
deriving DecidableEq

/-- `DocumentNode`.  Identifiers (`uuid4` strings in the source) are embedded
as natural numbers drawn from a deterministic supply; `metadata` is a free-form
dictionary in the source, embedded here by one field per key the code ever
writes or reads (`char_count`, `page_count`, `child_count`, `total_pages`,
`is_synthetic_root`); embedding vectors are lists of rationals. -/
structure DocumentNode where
  id : Nat
  content : String
  summary : String
  embedding : Option (List ℚ)
  node_type : NodeType
  parent_id : Option Nat
  children_ids : List Nat
  document_id : String
  level : Nat
  page_start : Option Nat
  page_end : Option Nat
  meta_char_count : Option Nat
  meta_page_count : Option Nat
  meta_child_count : Option Nat
  meta_total_pages : Option Nat
  meta_is_synthetic_root : Bool
deriving DecidableEq

/-- `DocumentTree`.  The Python `nodes` dict (string key → node, insertion
ordered, value assignment keeps the original slot) is embedded as an
insertion-ordered list of nodes with unique `id` fields. -/
structure DocumentTree where
  document_id : String
  document_title : String
  nodes : List DocumentNode
  root_node_id : Option Nat
deriving DecidableEq

/-- `self.nodes[node.id] = node`: replace the entry with the same key in
place, otherwise append. -/
def storePut : List DocumentNode → DocumentNode → List DocumentNode
  | [], n => [n]
  | m :: ms, n => if m.id = n.id then n :: ms else m :: storePut ms n

/-- In-place mutation of the store entry with identifier `cid` (Python
mutates the aliased object held by the dict). -/
def storeUpdate (f : DocumentNode → DocumentNode) (cid : Nat)
    (store : List DocumentNode) : List DocumentNode :=
  store.map (fun n => if n.id = cid then f n else n)

/-- `DocumentTree.add_node`: store the node, then mark it as root (and point
`root_node_id` at it) when the tree has no root yet or the node has no parent
identifier (`node.is_root()`). -/
def DocumentTree.add_node (tree : DocumentTree) (node : DocumentNode) : DocumentTree :=
  if tree.root_node_id = none ∨ node.parent_id = none then
    { tree with
      nodes := storePut tree.nodes { node with node_type := NodeType.root },
      root_node_id := some node.id }
  else
    { tree with nodes := storePut tree.nodes node }

/-- `DocumentTree.get_node`. -/
def DocumentTree.get_node (tree : DocumentTree) (nid : Nat) : Option DocumentNode :=
  tree.nodes.find? (fun n => n.id == nid)

/-- `DocumentNode.add_child` where the child is an aliased store entry: append
the child identifier (unless already present), set the child's `parent_id` and
`level = parent.level + 1` in the store, and promote a leaf parent to branch. -/
def adoptInStore (store : List DocumentNode) (parent : DocumentNode)
    (cid : Nat) : DocumentNode × List DocumentNode :=
  if parent.children_ids.contains cid then (parent, store)
  else
    ({ parent with
        children_ids := parent.children_ids ++ [cid],
        node_type := if parent.node_type = NodeType.leaf then NodeType.branch
          else parent.node_type },
      storeUpdate
        (fun c => { c with parent_id := some parent.id, level := parent.level + 1 })
        cid store)

/-- `for child in group: parent_node.add_child(child)`. -/
def adoptAll : DocumentNode → List DocumentNode → List Nat →
    DocumentNode × List DocumentNode
  | p, store, [] => (p, store)
  | p, store, c :: cs =>
    let ps := adoptInStore store p c
    adoptAll ps.1 ps.2 cs

/-- `min(node.page_start for node in group if node.page_start)`: Python
truthiness drops both `None` and `0`; the generator raises on an empty
selection, which is unreachable in the builder — `none` stands for that case. -/
def minTruthy (l : List (Option Nat)) : Option Nat :=
  ((l.filterMap id).filter (fun p => decide (p ≠ 0))).min?

/-- `max(node.page_end for node in group if node.page_end)`, as `minTruthy`. -/
def maxTruthy (l : List (Option Nat)) : Option Nat :=
  ((l.filterMap id).filter (fun p => decide (p ≠ 0))).max?

/-- `range(0, len(child_nodes), group_size)` slicing, with fuel (the source
steps by `group_size ≥ 2`, so a fuel of `len(child_nodes)` suffices). -/
def groupsOf (gs : Nat) : Nat → List Nat → List (List Nat)
  | 0, _ => []
  | _, [] => []
  | fuel + 1, l => l.take gs :: groupsOf gs fuel (l.drop gs)

/-- The parent node built for one group in `create_parent_nodes` (before the
adoption loop runs). -/
def parentFromGroup (store : List DocumentNode) (g : List Nat) (docId : String)
    (level : Nat) (pid : Nat) : DocumentNode :=
  let groupNodes := g.filterMap (fun i => store.find? (fun n => n.id == i))
  { id := pid, content := "", summary := "", embedding := none,
    node_type := NodeType.branch, parent_id := none, children_ids := [],
    document_id := docId, level := level,
    page_start := minTruthy (groupNodes.map (fun n => n.page_start)),
    page_end := maxTruthy (groupNodes.map (fun n => n.page_end)),
    meta_char_count := none, meta_page_count := none,
    meta_child_count := some g.length,
    meta_total_pages := some (groupNodes.map (fun n => n.meta_page_count.getD 1)).sum,
    meta_is_synthetic_root := false }

/-- The `for i in range(0, len(child_nodes), group_size)` loop of
`create_parent_nodes`: build a parent per group, adopt the group members
(mutating them in the store), and collect the parents in order.  Returns
(updated store, parents, next fresh identifier). -/
def buildGroups (docId : String) (level : Nat) :
    List (List Nat) → List DocumentNode → Nat →
    List DocumentNode × List DocumentNode × Nat
  | [], store, ctr => (store, [], ctr)
  | g :: gl, store, ctr =>
    let p0 := parentFromGroup store g docId level ctr
    let ps := adoptAll p0 store g
    let rest := buildGroups docId level gl ps.2 (ctr + 1)
    (rest.1, ps.1 :: rest.2.1, rest.2.2)

/-- `DocumentSplitter.create_parent_nodes`, acting on the identifiers of the
current-level nodes (the Python list of aliased node objects). -/
def create_parent_nodes (store : List DocumentNode) (childIds : List Nat)
    (docId : String) (level : Nat) (ctr : Nat) :
    List DocumentNode × List DocumentNode × Nat :=
  if childIds.length ≤ 1 then
    (store, childIds.filterMap (fun i => store.find? (fun n => n.id == i)), ctr)
  else
    let gs := min 5 (max 2 (childIds.length / 3))
    buildGroups docId level (groupsOf gs childIds.length childIds) store ctr

/-- `DocumentSplitter.create_leaf_nodes`, drawing identifiers from `ctr`. -/
def create_leaf_nodes : List Chunk → String → Nat → List DocumentNode
  | [], _, _ => []
  | c :: cs, docId, ctr =>
    { id := ctr, content := c.text, summary := "", embedding := none,
      node_type := NodeType.leaf, parent_id := none, children_ids := [],
      document_id := docId, level := 1,
      page_start := some c.page_start, page_end := some c.page_end,
      meta_char_count := some c.char_count, meta_page_count := some c.page_count,
      meta_child_count := none, meta_total_pages := none,
      meta_is_synthetic_root := false } :: create_leaf_nodes cs docId (ctr + 1)

/-- The `while len(current_level_nodes) > 1` loop of `build_tree_structure`,
with fuel (a fuel of `len(leaf_nodes)` suffices, proved below).  Returns the
tree, the identifiers of the remaining top-level nodes, and the fresh-id
counter. -/
def buildLoop (docId : String) : Nat → DocumentTree → List Nat → Nat → Nat →
    DocumentTree × List Nat × Nat
  | 0, tree, ids, _, ctr => (tree, ids, ctr)
  | fuel + 1, tree, ids, level, ctr =>
    if 1 < ids.length then
      let r := create_parent_nodes tree.nodes ids docId level ctr
      let tree2 := r.2.1.foldl DocumentTree.add_node { tree with nodes := r.1 }
      buildLoop docId fuel tree2 (r.2.1.map (fun p => p.id)) (level + 1) r.2.2
    else (tree, ids, ctr)

/-- The root-selection tail of `build_tree_structure`: promote the sole
remaining node to root (forcing `level = 0`), or — with several remaining
top-level nodes — create one synthetic root (`is_synthetic_root` metadata)
that adopts them all. -/
def finalizeRoot (docId : String) (r : DocumentTree × List Nat × Nat) : DocumentTree :=
  match r.2.1 with
  | [rootId] =>
    { r.1 with
      nodes := storeUpdate
        (fun n => { n with node_type := NodeType.root, level := 0 }) rootId r.1.nodes,
      root_node_id := some rootId }
  | currentIds =>
    let currentNodes := currentIds.filterMap
      (fun i => r.1.nodes.find? (fun n => n.id == i))
    let root0 : DocumentNode :=
      { id := r.2.2, content := "", summary := "",
        embedding := none, node_type := NodeType.root, parent_id := none,
        children_ids := [], document_id := docId, level := 0,
        page_start := minTruthy (currentNodes.map (fun n => n.page_start)),
        page_end := maxTruthy (currentNodes.map (fun n => n.page_end)),
        meta_char_count := none, meta_page_count := none,
        meta_child_count := some currentIds.length, meta_total_pages := none,
        meta_is_synthetic_root := true }
    let ps := adoptAll root0 r.1.nodes currentIds
    let tree2 := DocumentTree.add_node { r.1 with nodes := ps.2 } ps.1
    { tree2 with root_node_id := some ps.1.id }

/-- `DocumentSplitter.build_tree_structure`. -/
def build_tree_structure (leafNodes : List DocumentNode) (docId : String)
    (ctr : Nat) : DocumentTree :=
  if leafNodes = [] then ⟨docId, "", [], none⟩
  else
    let tree1 := leafNodes.foldl DocumentTree.add_node ⟨docId, "", [], none⟩
    finalizeRoot docId
      (buildLoop docId leafNodes.length tree1 (leafNodes.map (fun n => n.id)) 1 ctr)

/-- The 23-page scenario of the spec: `max_chunk_size = 10`,
`overlap_pages = 0` (and the stored but unused `min_chunk_size = 1`). -/
def scenarioChunks : List Chunk :=
  DocumentSplitter.split_pages_into_chunks ⟨10, 1, 0⟩ (mkPages (List.replicate 23 "t"))

/-- Leaf nodes of the scenario, with identifiers 0, 1, 2. -/
def scenarioLeaves : List DocumentNode := create_leaf_nodes scenarioChunks "doc" 0

/-- The tree built in the scenario; parents drawn from identifier 100. -/
def scenarioTree : DocumentTree := build_tree_structure scenarioLeaves "doc" 100

lemma groupsOf_nil (gs fuel : Nat) : groupsOf gs fuel [] = [] := by
  cases fuel with
  | zero => rfl
  | succ f => rfl

lemma groupsOf_two_mul_length_le (gs : Nat) (hgs : 2 ≤ gs) :
    ∀ (fuel : Nat) (l : List Nat), l.length ≤ fuel →
      2 * (groupsOf gs fuel l).length ≤ l.length + 1 := by
  intro fuel
  induction fuel with
  | zero =>
    intro l hl
    have hnil : l = [] := List.length_eq_zero.mp (by omega)
    subst hnil
    simp [groupsOf_nil]
  | succ f ih =>
    intro l hl
    cases l with
    | nil => simp [groupsOf_nil]
    | cons x xs =>
      simp only [List.length_cons] at hl
      have hdrop := ih ((x :: xs).drop gs)
        (by simp only [List.length_drop, List.length_cons]; omega)
      simp only [groupsOf, List.length_cons]
      simp only [List.length_drop, List.length_cons] at hdrop
      omega

lemma buildGroups_length (docId : String) (level : Nat) :
    ∀ (gl : List (List Nat)) (store : List DocumentNode) (ctr : Nat),
      (buildGroups docId level gl store ctr).2.1.length = gl.length := by
  intro gl
  induction gl with
  | nil => intro store ctr; rfl
  | cons g gl ih =>
    intro store ctr
    simp [buildGroups, ih]

lemma create_parent_nodes_length (store : List DocumentNode) (childIds : List Nat)
    (docId : String) (level ctr : Nat) (h2 : 2 ≤ childIds.length) :
    1 ≤ (create_parent_nodes store childIds docId level ctr).2.1.length ∧
      (create_parent_nodes store childIds docId level ctr).2.1.length <
        childIds.length := by
  have hn : ¬ childIds.length ≤ 1 := by omega
  have hgs : 2 ≤ min 5 (max 2 (childIds.length / 3)) := by omega
  simp only [create_parent_nodes, if_neg hn, buildGroups_length]
  have hb := groupsOf_two_mul_length_le (min 5 (max 2 (childIds.length / 3))) hgs
    childIds.length childIds le_rfl
  cases childIds with
  | nil => simp at h2
  | cons x xs =>
    have hlen : (x :: xs).length = xs.length + 1 := rfl
    constructor
    · have : 0 < (groupsOf (min 5 (max 2 ((x :: xs).length / 3)))
          (x :: xs).length (x :: xs)).length := by
        rw [hlen]
        simp [groupsOf]
      omega
    · omega

lemma buildLoop_ids_length (docId : String) :
    ∀ (fuel : Nat) (tree : DocumentTree) (ids : List Nat) (level ctr : Nat),
      1 ≤ ids.length → ids.length ≤ fuel →
      ((buildLoop docId fuel tree ids level ctr).2.1).length = 1 := by
  intro fuel
  induction fuel with
  | zero =>
    intro tree ids level ctr h1 h2
    omega
  | succ f ih =>
    intro tree ids level ctr h1 h2
    by_cases hg : 1 < ids.length
    · have hb := create_parent_nodes_length tree.nodes ids docId level ctr (by omega)
      simp only [buildLoop, if_pos hg]
      apply ih
      · simp only [List.length_map]
        omega
      · simp only [List.length_map]
        omega
    · simp only [buildLoop, if_neg hg]
      omega

/-- No node of `store` carries the `is_synthetic_root` metadata flag. -/
def flagsFalse (store : List DocumentNode) : Prop :=
  ∀ n ∈ store, n.meta_is_synthetic_root = false

lemma storePut_flags : ∀ (store : List DocumentNode) (node : DocumentNode),
    flagsFalse store → node.meta_is_synthetic_root = false →
    flagsFalse (storePut store node) := by
  intro store
  induction store with
  | nil =>
    intro node hs hn m hm
    rw [storePut, List.mem_singleton] at hm
    subst hm
    exact hn
  | cons x xs ih =>
    intro node hs hn m hm
    rw [storePut] at hm
    by_cases hid : x.id = node.id
    · rw [if_pos hid] at hm
      rcases List.mem_cons.mp hm with h | h
      · subst h; exact hn
      · exact hs m (List.mem_cons_of_mem _ h)
    · rw [if_neg hid] at hm
      rcases List.mem_cons.mp hm with h | h
      · subst h; exact hs m (List.mem_cons_self _ _)
      · exact ih node (fun k hk => hs k (List.mem_cons_of_mem _ hk)) hn m h

lemma storeUpdate_flags (f : DocumentNode → DocumentNode) (cid : Nat)
    (store : List DocumentNode)
    (hf : ∀ c, (f c).meta_is_synthetic_root = c.meta_is_synthetic_root)
    (hs : flagsFalse store) : flagsFalse (storeUpdate f cid store) := by
  intro m hm
  rw [storeUpdate] at hm
  obtain ⟨c, hc, hcm⟩ := List.mem_map.mp hm
  by_cases h : c.id = cid
  · rw [if_pos h] at hcm
    subst hcm
    rw [hf]
    exact hs c hc
  · rw [if_neg h] at hcm
    subst hcm
    exact hs c hc

lemma adoptInStore_flags (store : List DocumentNode) (parent : DocumentNode)
    (cid : Nat) (hs : flagsFalse store)
    (hp : parent.meta_is_synthetic_root = false) :
    (adoptInStore store parent cid).1.meta_is_synthetic_root = false ∧
      flagsFalse (adoptInStore store parent cid).2 := by
  rw [adoptInStore]
  by_cases h : parent.children_ids.contains cid
  · rw [if_pos h]
    exact ⟨hp, hs⟩
  · rw [if_neg h]
    exact ⟨hp, storeUpdate_flags _ _ _ (fun c => rfl) hs⟩

lemma adoptAll_flags : ∀ (ids : List Nat) (p : DocumentNode)
    (store : List DocumentNode), flagsFalse store →
    p.meta_is_synthetic_root = false →
    (adoptAll p store ids).1.meta_is_synthetic_root = false ∧
      flagsFalse (adoptAll p store ids).2 := by
  intro ids
  induction ids with
  | nil => intro p store hs hp; exact ⟨hp, hs⟩
  | cons c cs ih =>
    intro p store hs hp
    have h1 := adoptInStore_flags store p c hs hp
    simp only [adoptAll]
    exact ih _ _ h1.2 h1.1

lemma buildGroups_flags (docId : String) (level : Nat) :
    ∀ (gl : List (List Nat)) (store : List DocumentNode) (ctr : Nat),
      flagsFalse store →
      flagsFalse (buildGroups docId level gl store ctr).1 ∧
        ∀ p ∈ (buildGroups docId level gl store ctr).2.1,
          p.meta_is_synthetic_root = false := by
  intro gl
  induction gl with
  | nil =>
    intro store ctr hs
    exact ⟨hs, by intro p hp; simp [buildGroups] at hp⟩
  | cons g gl ih =>
    intro store ctr hs
    have hp0 : (parentFromGroup store g docId level ctr).meta_is_synthetic_root = false :=
      rfl
    have h1 := adoptAll_flags g (parentFromGroup store g docId level ctr) store hs hp0
    have h2 := ih (adoptAll (parentFromGroup store g docId level ctr) store g).2 (ctr + 1) h1.2
    simp only [buildGroups]
    refine ⟨h2.1, ?_⟩
    intro p hp
    rcases List.mem_cons.mp hp with h | h
    · subst h; exact h1.1
    · exact h2.2 p h

lemma create_parent_nodes_flags (store : List DocumentNode) (childIds : List Nat)
    (docId : String) (level ctr : Nat) (hs : flagsFalse store) :
    flagsFalse (create_parent_nodes store childIds docId level ctr).1 ∧
      ∀ p ∈ (create_parent_nodes store childIds docId level ctr).2.1,
        p.meta_is_synthetic_root = false := by
  rw [create_parent_nodes]
  by_cases h : childIds.length ≤ 1
  · rw [if_pos h]
    refine ⟨hs, ?_⟩
    intro p hp
    obtain ⟨i, hi, hfind⟩ := List.mem_filterMap.mp hp
    exact hs p (List.mem_of_find?_eq_some hfind)
  · rw [if_neg h]
    exact buildGroups_flags docId level _ store ctr hs

lemma add_node_flags (tree : DocumentTree) (node : DocumentNode)
    (hs : flagsFalse tree.nodes) (hn : node.meta_is_synthetic_root = false) :
    flagsFalse (tree.add_node node).nodes := by
  rw [DocumentTree.add_node]
  by_cases h : tree.root_node_id = none ∨ node.parent_id = none
  · rw [if_pos h]
    exact storePut_flags _ _ hs hn
  · rw [if_neg h]
    exact storePut_flags _ _ hs hn

lemma foldl_add_node_flags : ∀ (ps : List DocumentNode) (tree : DocumentTree),
    flagsFalse tree.nodes → (∀ p ∈ ps, p.meta_is_synthetic_root = false) →
    flagsFalse (ps.foldl DocumentTree.add_node tree).nodes := by
  intro ps
  induction ps with
  | nil => intro tree hs _; exact hs
  | cons p ps ih =>
    intro tree hs hp
    rw [List.foldl_cons]
    exact ih _ (add_node_flags tree p hs (hp p (List.mem_cons_self _ _)))
      (fun q hq => hp q (List.mem_cons_of_mem _ hq))

lemma buildLoop_flags (docId : String) : ∀ (fuel : Nat) (tree : DocumentTree)
    (ids : List Nat) (level ctr : Nat), flagsFalse tree.nodes →
    flagsFalse (buildLoop docId fuel tree ids level ctr).1.nodes := by
  intro fuel
  induction fuel with
  | zero => intro tree ids level ctr hs; exact hs
  | succ f ih =>
    intro tree ids level ctr hs
    by_cases hg : 1 < ids.length
    · simp only [buildLoop, if_pos hg]
      have hc := create_parent_nodes_flags tree.nodes ids docId level ctr hs
      exact ih _ _ _ _ (foldl_add_node_flags _ _ hc.1 hc.2)
    · simp only [buildLoop, if_neg hg]
      exact hs

/-- Claim C1 (amended): the grouping loop of `build_tree_structure` always
reduces the top level to exactly one node (each pass produces at least one
parent and, with `group_size ≥ 2`, strictly fewer parents than children), so
that node is promoted to root directly and the synthetic-root branch is
never taken: no node of any built tree carries `is_synthetic_root`.  In the
23-page scenario the 3 leaves group into 2 parents, those group into one
further parent, and that parent (identifier 102) is promoted to root with
children the two parents. -/
theorem build_no_synthetic_root :
    (∀ (leaves : List DocumentNode) (docId : String) (ctr : Nat),
      leaves ≠ [] → (∀ n ∈ leaves, n.meta_is_synthetic_root = false) →
      ∀ n ∈ (build_tree_structure leaves docId ctr).nodes,
        n.meta_is_synthetic_root = false) ∧
    scenarioChunks.length = 3 ∧
    scenarioLeaves.length = 3 ∧
    scenarioTree.root_node_id = some 102 ∧
    (scenarioTree.get_node 102).map (fun n => (n.level, n.children_ids)) =
      some (0, [100, 101]) ∧
    (scenarioTree.get_node 100).map (fun n => n.children_ids) = some [0, 1] ∧
    (scenarioTree.get_node 101).map (fun n => n.children_ids) = some [2] := by
  refine ⟨?_, by decide, by decide, by decide, by decide, by decide, by decide⟩
  intro leaves docId ctr hne hfl n hn
  simp only [build_tree_structure, if_neg hne] at hn
  have hfl1 : flagsFalse (leaves.foldl DocumentTree.add_node
      (⟨docId, "", [], none⟩ : DocumentTree)).nodes := by
    apply foldl_add_node_flags
    · intro m hm
      simp at hm
    · exact hfl
  generalize hB : buildLoop docId leaves.length
      (leaves.foldl DocumentTree.add_node ⟨docId, "", [], none⟩)
      (leaves.map (fun m => m.id)) 1 ctr = b at hn
  have hlen : b.2.1.length = 1 := by
    rw [← hB]
    apply buildLoop_ids_length
    · simp only [List.length_map]
      exact List.length_pos.mpr hne
    · simp only [List.length_map]
      exact le_rfl
  have hflr : flagsFalse b.1.nodes := by
    rw [← hB]
    exact buildLoop_flags docId _ _ _ _ _ hfl1
  obtain ⟨t, ids, c⟩ := b
  obtain ⟨x, hx⟩ := List.length_eq_one.mp hlen
  simp only at hx
  subst hx
  simp only [finalizeRoot] at hn
  exact storeUpdate_flags
    (fun m => { m with node_type := NodeType.root, level := 0 }) x t.nodes
    (fun k => rfl) hflr n hn

/-- Witness for C1: the general statement applied to the scenario leaves at
the scenario root node. -/
theorem build_no_synthetic_root_witness :
    ∀ n ∈ (build_tree_structure scenarioLeaves "doc" 100).nodes,
      n.meta_is_synthetic_root = false :=
  build_no_synthetic_root.1 scenarioLeaves "doc" 100 (by decide) (by decide)

/-- Counterexample for C1 as stated: in the 23-page scenario
(`max_chunk_size = 10`, `overlap_pages = 0`, 3 chunks) the built tree
contains no node marked `is_synthetic_root` — no synthetic root was added
over the two parent nodes. -/
theorem scenario_no_synthetic_root :
    scenarioChunks.length = 3 ∧
      ¬ ∃ n ∈ scenarioTree.nodes, n.meta_is_synthetic_root = true := by
  decide

/-- Claim C2: in the scenario tree every node — the childless chunk-derived
leaves included — ends with `node_type` ROOT, because `add_node` marks every
node whose `parent_id` is unset at insertion time as root and every node is
inserted before it is adopted. -/
theorem all_built_nodes_typed_root :
    (∀ n ∈ scenarioTree.nodes, n.node_type = NodeType.root) ∧
      ∃ n ∈ scenarioTree.nodes, n.children_ids = [] ∧
        n.node_type ≠ NodeType.leaf := by
  decide

/-- Claim C3: in the scenario tree the root (102) has level 0, but its
listed children (100, 101) have level 3 rather than 1, and the leaves have
level 2 rather than 1 — `add_child` bumps each adopted child to the parent's
pre-promotion level plus one. -/
theorem levels_inconsistent_on_scenario :
    scenarioTree.root_node_id = some 102 ∧
      (scenarioTree.get_node 102).map (fun n => (n.level, n.children_ids)) =
        some (0, [100, 101]) ∧
      (scenarioTree.get_node 100).map (fun n => n.level) = some 3 ∧
      (scenarioTree.get_node 0).map (fun n => (n.level, n.children_ids)) =
        some (2, []) := by
  decide

/-! ### Navigator (`tree_navigator.py`)

The navigator reads nodes only through `db_connector.get_node_by_id`, a
lookup capability supplied by storage; it is embedded as a function
`Nat → Option DocumentNode`.  The `while` walk and the recursive subtree
descents chase identifiers through that capability, so they carry an
explicit fuel parameter (any fuel at least the tree height gives the Python
behaviour on well-formed data). -/

/-- `TreeNavigator.navigate_to_parent`. -/
def navigate_to_parent (db : Nat → Option DocumentNode) (node_id : Nat) :
    Option DocumentNode :=
  match db node_id with
  | none => none
  | some node =>
    match node.parent_id with
    | none => none
    | some pid => db pid

/-- `TreeNavigator.navigate_to_children`: children looked up in order,
missing identifiers skipped. -/
def navigate_to_children (db : Nat → Option DocumentNode) (node_id : Nat) :
    List DocumentNode :=
  match db node_id with
  | none => []
  | some node => node.children_ids.filterMap db

/-- `TreeNavigator.navigate_to_next_sibling`.  `findIdx?` models
`list.index` with the `ValueError` branch returning `None`; the bound check
`current_index + 1 < len` is the `[idx + 1]? = some` case. -/
def navigate_to_next_sibling (db : Nat → Option DocumentNode) (node_id : Nat) :
    Option DocumentNode :=
  match db node_id with
  | none => none
  | some node =>
    match node.parent_id with
    | none => none
    | some pid =>
      match db pid with
      | none => none
      | some parent =>
        match parent.children_ids.findIdx? (fun c => c == node_id) with
        | none => none
        | some idx => (parent.children_ids[idx + 1]?).bind db

/-- `TreeNavigator.navigate_to_previous_sibling`. -/
def navigate_to_previous_sibling (db : Nat → Option DocumentNode) (node_id : Nat) :
    Option DocumentNode :=
  match db node_id with
  | none => none
  | some node =>
    match node.parent_id with
    | none => none
    | some pid =>
      match db pid with
      | none => none
      | some parent =>
        match parent.children_ids.findIdx? (fun c => c == node_id) with
        | none => none
        | some idx =>
          if 0 < idx then (parent.children_ids[idx - 1]?).bind db else none

/-- `DocumentNode.get_page_range`. -/
def get_page_range (n : DocumentNode) : String :=
  match n.page_start with
  | none => "N/A"
  | some ps =>
    match n.page_end with
    | none => "Page " ++ toString ps
    | some pe =>
      if ps = pe then "Page " ++ toString ps
      else "Pages " ++ toString ps ++ "-" ++ toString pe

/-- One entry of the breadcrumb path dictionary list. -/
structure BreadcrumbEntry where
  id : Nat
  summary : String
  page_range : String
  level : Nat
deriving DecidableEq

/-- The `while current_node` loop of `get_breadcrumb_path` (fuelled). -/
def breadcrumbLoop (db : Nat → Option DocumentNode) :
    Nat → Option DocumentNode → List BreadcrumbEntry
  | 0, _ => []
  | _, none => []
  | fuel + 1, some node =>
    { id := node.id,
      summary := if node.summary = "" then "Section" else node.summary,
      page_range := get_page_range node,
      level := node.level } ::
      (match node.parent_id with
        | some pid => breadcrumbLoop db fuel (db pid)
        | none => [])

/-- `TreeNavigator.get_breadcrumb_path`: collect entries walking up, then
reverse to root-to-current order. -/
def get_breadcrumb_path (db : Nat → Option DocumentNode) (fuel node_id : Nat) :
    List BreadcrumbEntry :=
  (breadcrumbLoop db fuel (db node_id)).reverse

/-- `TreeNavigator._find_first_leaf_in_subtree`. -/
def find_first_leaf_in_subtree (db : Nat → Option DocumentNode) :
    Nat → DocumentNode → Option DocumentNode
  | 0, _ => none
  | fuel + 1, node =>
    if node.children_ids = [] then some node
    else
      match node.children_ids.head? with
      | some c =>
        match db c with
        | some child => find_first_leaf_in_subtree db fuel child
        | none => none
      | none => none

/-- `TreeNavigator._find_last_leaf_in_subtree` (`children_ids[-1]`). -/
def find_last_leaf_in_subtree (db : Nat → Option DocumentNode) :
    Nat → DocumentNode → Option DocumentNode
  | 0, _ => none
  | fuel + 1, node =>
    if node.children_ids = [] then some node
    else
      match node.children_ids.getLast? with
      | some c =>
        match db c with
        | some child => find_last_leaf_in_subtree db fuel child
        | none => none
      | none => none

/-- The `while current_node` walk-up of `find_next_leaf_node`. -/
def find_next_leaf_loop (db : Nat → Option DocumentNode) :
    Nat → DocumentNode → Option DocumentNode
  | 0, _ => none
  | fuel + 1, current =>
    match navigate_to_next_sibling db current.id with
    | some sib => find_first_leaf_in_subtree db fuel sib
    | none =>
      match navigate_to_parent db current.id with
      | some p => find_next_leaf_loop db fuel p
      | none => none

/-- `TreeNavigator.find_next_leaf_node`: descend into the first child's
subtree when there are children (falling through to the sibling walk when
the first child fails to resolve, as the source does), otherwise walk up
through ancestors looking for a next sibling. -/
def find_next_leaf_node (db : Nat → Option DocumentNode) (fuel node_id : Nat) :
    Option DocumentNode :=
  match db node_id with
  | none => none
  | some node =>
    match node.children_ids.head? with
    | some c =>
      match db c with
      | some first_child => find_first_leaf_in_subtree db fuel first_child
      | none => find_next_leaf_loop db fuel node
    | none => find_next_leaf_loop db fuel node

/-- `TreeNavigator.find_previous_leaf_node`: the previous sibling's last
leaf when a previous sibling exists; otherwise the parent — and only when
the parent is itself a leaf; otherwise absent.  (No ancestor walk.) -/
def find_previous_leaf_node (db : Nat → Option DocumentNode) (fuel node_id : Nat) :
    Option DocumentNode :=
  match db node_id with
  | none => none
  | some _ =>
    match navigate_to_previous_sibling db node_id with
    | some prev => find_last_leaf_in_subtree db fuel prev
    | none =>
      match navigate_to_parent db node_id with
      | some parent =>
        if parent.children_ids = [] then some parent else none
      | none => none

/-- A node of the concrete navigator test store. -/
def navNode (nid : Nat) (ntype : NodeType) (pid : Option Nat)
    (cids : List Nat) (lvl : Nat) : DocumentNode :=
  { id := nid, content := "", summary := "", embedding := none,
    node_type := ntype, parent_id := pid, children_ids := cids,
    document_id := "nav", level := lvl, page_start := none, page_end := none,
    meta_char_count := none, meta_page_count := none, meta_child_count := none,
    meta_total_pages := none, meta_is_synthetic_root := false }

/-- A well-formed two-level store: root 10 with children 11 and 12; node 11
has leaves 13, 14, node 12 has leaves 15, 16. -/
def navStore : List DocumentNode :=
  [navNode 10 NodeType.root none [11, 12] 0,
   navNode 11 NodeType.branch (some 10) [13, 14] 1,
   navNode 12 NodeType.branch (some 10) [15, 16] 1,
   navNode 13 NodeType.leaf (some 11) [] 2,
   navNode 14 NodeType.leaf (some 11) [] 2,
   navNode 15 NodeType.leaf (some 12) [] 2,
   navNode 16 NodeType.leaf (some 12) [] 2]

/-- The lookup capability over `navStore`. -/
def navDb (nid : Nat) : Option DocumentNode :=
  navStore.find? (fun n => n.id == nid)

/-- Claim C8: every navigation operation given an identifier the lookup
capability does not resolve returns an absent result or an empty list. -/
theorem navigator_unknown_id_absent (db : Nat → Option DocumentNode)
    (nid : Nat) (fuel : Nat) (h : db nid = none) :
    navigate_to_parent db nid = none ∧
    navigate_to_children db nid = [] ∧
    navigate_to_next_sibling db nid = none ∧
    navigate_to_previous_sibling db nid = none ∧
    get_breadcrumb_path db fuel nid = [] ∧
    find_next_leaf_node db fuel nid = none ∧
    find_previous_leaf_node db fuel nid = none := by
  refine ⟨?_, ?_, ?_, ?_, ?_, ?_, ?_⟩
  · simp [navigate_to_parent, h]
  · simp [navigate_to_children, h]
  · simp [navigate_to_next_sibling, h]
  · simp [navigate_to_previous_sibling, h]
  · rw [get_breadcrumb_path, h]
    cases fuel with
    | zero => rfl
    | succ f => rfl
  · simp [find_next_leaf_node, h]
  · simp [find_previous_leaf_node, h]

/-- Witness for C8: the everywhere-empty lookup at identifier 0. -/
theorem navigator_unknown_id_absent_witness :
    navigate_to_parent (fun _ => none) 0 = none ∧
      get_breadcrumb_path (fun _ => none) 5 0 = [] ∧
      find_previous_leaf_node (fun _ => none) 5 0 = none := by
  have h := navigator_unknown_id_absent (fun _ => none) 0 5 rfl
  exact ⟨h.1, h.2.2.2.2.1, h.2.2.2.2.2.2⟩

/-- Claim C4: `find_previous_leaf_node` is not the mirror of
`find_next_leaf_node`.  In the concrete store, leaf 15 is the document-order
successor of leaf 14 (second conjunct), so the previous leaf of 15 is 14;
but 15 is the first child of its parent and the code does not walk up
through ancestors, so it returns an absent result (first conjunct) even
though 15 neither is nor precedes the first leaf of the document. -/
theorem find_previous_leaf_not_mirror :
    find_previous_leaf_node navDb 10 15 = none ∧
      find_next_leaf_node navDb 10 14 =
        some (navNode 15 NodeType.leaf (some 12) [] 2) ∧
      find_last_leaf_in_subtree navDb 10
          (navNode 11 NodeType.branch (some 10) [13, 14] 1) =
        some (navNode 14 NodeType.leaf (some 11) [] 2) := by
  decide

/-! ### Similarity ranker (`embeddings.py`)

Python floats are embedded as real numbers; embedding vectors are lists of
rationals (the repository only ever feeds concrete float lists), cast to ℝ
inside the similarity computation.  The definitions are noncomputable only
because `ℝ` is; every concrete evaluation used below is carried out by
rewriting. -/

/-- Sum of squares, `np.linalg.norm(v) ** 2`. -/
def sumSq (l : List ℚ) : ℚ := (l.map (fun x => x * x)).sum

/-- `np.dot`.  NumPy raises on unequal lengths; `zipWith` truncates instead,
but the two agree on the equal-length vectors the repository compares. -/
def dotProd (a b : List ℚ) : ℚ := (List.zipWith (fun x y => x * y) a b).sum

/-- `EmbeddingGenerator.compute_similarity`: `0.0` on an empty (falsy)
argument, `0.0` when either norm is zero, otherwise the cosine ratio. -/
noncomputable def compute_similarity (e1 e2 : List ℚ) : ℝ :=
  if e1 = [] ∨ e2 = [] then 0
  else
    let norm1 : ℝ := Real.sqrt ((sumSq e1 : ℝ))
    let norm2 : ℝ := Real.sqrt ((sumSq e2 : ℝ))
    if norm1 = 0 ∨ norm2 = 0 then 0
    else ((dotProd e1 e2 : ℝ)) / (norm1 * norm2)

lemma sumSq_nonneg (l : List ℚ) : 0 ≤ sumSq l := by
  apply List.sum_nonneg
  intro x hx
  obtain ⟨y, hy, hxy⟩ := List.mem_map.mp hx
  subst hxy
  exact mul_self_nonneg y

lemma sqrt_sumSq_eq_zero_iff (l : List ℚ) :
    Real.sqrt ((sumSq l : ℝ)) = 0 ↔ sumSq l = 0 := by
  rw [Real.sqrt_eq_zero (by exact_mod_cast sumSq_nonneg l)]
  exact_mod_cast Iff.rfl

/-- Claim C7: `compute_similarity` is total on degenerate inputs — when
either vector is empty or has zero magnitude the result is exactly `0.0`
(first conjunct), and in every remaining case the divisor of the cosine
ratio is nonzero, so the division is only ever executed with a nonzero
divisor (second conjunct). -/
theorem compute_similarity_degenerate (e1 e2 : List ℚ) :
    (e1 = [] ∨ e2 = [] ∨ sumSq e1 = 0 ∨ sumSq e2 = 0 →
      compute_similarity e1 e2 = 0) ∧
    (e1 ≠ [] → e2 ≠ [] → sumSq e1 ≠ 0 → sumSq e2 ≠ 0 →
      Real.sqrt ((sumSq e1 : ℝ)) * Real.sqrt ((sumSq e2 : ℝ)) ≠ 0) := by
  constructor
  · intro h
    by_cases he : e1 = [] ∨ e2 = []
    · rw [compute_similarity, if_pos he]
    · rw [compute_similarity, if_neg he]
      have hz : sumSq e1 = 0 ∨ sumSq e2 = 0 := by tauto
      have hnz : Real.sqrt ((sumSq e1 : ℝ)) = 0 ∨ Real.sqrt ((sumSq e2 : ℝ)) = 0 := by
        rcases hz with hz | hz
        · exact Or.inl ((sqrt_sumSq_eq_zero_iff e1).mpr hz)
        · exact Or.inr ((sqrt_sumSq_eq_zero_iff e2).mpr hz)
      simp only [if_pos hnz]
  · intro h1 h2 h3 h4
    have s1 : (0 : ℝ) < Real.sqrt ((sumSq e1 : ℝ)) := by
      apply Real.sqrt_pos.mpr
      have := lt_of_le_of_ne (sumSq_nonneg e1) (Ne.symm h3)
      exact_mod_cast this
    have s2 : (0 : ℝ) < Real.sqrt ((sumSq e2 : ℝ)) := by
      apply Real.sqrt_pos.mpr
      have := lt_of_le_of_ne (sumSq_nonneg e2) (Ne.symm h4)
      exact_mod_cast this
    exact mul_ne_zero (ne_of_gt s1) (ne_of_gt s2)

/-- Witness for C7: a zero-magnitude vector against a nonzero one. -/
theorem compute_similarity_degenerate_witness :
    compute_similarity [0, 0] [1, 2] = 0 :=
  (compute_similarity_degenerate [0, 0] [1, 2]).1
    (Or.inr (Or.inr (Or.inl (by norm_num [sumSq]))))

/-- The candidate-collection loop of `find_similar_nodes`: iterate the
store in insertion order, keep nodes with a truthy embedding (neither
`None` nor the empty list), compute the similarity, and keep pairs at or
above the threshold. -/
noncomputable def similarity_candidates (qe : List ℚ) (tree : DocumentTree)
    (threshold : ℝ) : List (DocumentNode × ℝ) :=
  tree.nodes.filterMap (fun n =>
    match n.embedding with
    | some (x :: xs) =>
      if threshold ≤ compute_similarity qe (x :: xs) then
        some (n, compute_similarity qe (x :: xs))
      else none
    | _ => none)

/-- Insertion step of a stable descending sort on the second component:
an element is placed before the first entry whose key does not exceed it,
so an earlier element precedes later ones with an equal key. -/
noncomputable def insertDesc (x : DocumentNode × ℝ) :
    List (DocumentNode × ℝ) → List (DocumentNode × ℝ)
  | [] => [x]
  | y :: ys => if y.2 ≤ x.2 then x :: y :: ys else y :: insertDesc x ys

/-- `similarities.sort(key=lambda x: x[1], reverse=True)`: Python's sort is
stable, and a stable sort by a total key is extensionally unique, so this
stable insertion sort computes the same list. -/
noncomputable def sortDesc : List (DocumentNode × ℝ) → List (DocumentNode × ℝ)
  | [] => []
  | x :: xs => insertDesc x (sortDesc xs)

/-- `EmbeddingGenerator.find_similar_nodes`. -/
noncomputable def find_similar_nodes (qe : List ℚ) (tree : DocumentTree)
    (top_k : Nat) (threshold : ℝ) : List (DocumentNode × ℝ) :=
  if qe = [] then []
  else (sortDesc (similarity_candidates qe tree threshold)).take top_k

lemma mem_insertDesc (x y : DocumentNode × ℝ) :
    ∀ l, y ∈ insertDesc x l ↔ y = x ∨ y ∈ l := by
  intro l
  induction l with
  | nil => simp [insertDesc]
  | cons z zs ih =>
    rw [insertDesc]
    by_cases h : z.2 ≤ x.2
    · rw [if_pos h]
      simp
    · rw [if_neg h]
      rw [List.mem_cons, ih, List.mem_cons]
      tauto

lemma mem_sortDesc (y : DocumentNode × ℝ) :
    ∀ l, y ∈ sortDesc l ↔ y ∈ l := by
  intro l
  induction l with
  | nil => simp [sortDesc]
  | cons z zs ih =>
    rw [sortDesc, mem_insertDesc, ih, List.mem_cons]

lemma insertDesc_pairwise (x : DocumentNode × ℝ) :
    ∀ l, List.Pairwise (fun a b => b.2 ≤ a.2) l →
      List.Pairwise (fun a b => b.2 ≤ a.2) (insertDesc x l) := by
  intro l
  induction l with
  | nil => intro _; simp [insertDesc]
  | cons y ys ih =>
    intro h
    obtain ⟨hy, hys⟩ := List.pairwise_cons.mp h
    rw [insertDesc]
    by_cases hle : y.2 ≤ x.2
    · rw [if_pos hle]
      refine List.pairwise_cons.mpr ⟨?_, h⟩
      intro z hz
      rcases List.mem_cons.mp hz with hz | hz
      · subst hz; exact hle
      · exact le_trans (hy z hz) hle
    · rw [if_neg hle]
      refine List.pairwise_cons.mpr ⟨?_, ih hys⟩
      intro z hz
      rcases (mem_insertDesc x z ys).mp hz with hz | hz
      · subst hz; exact le_of_not_le hle
      · exact hy z hz

lemma sortDesc_pairwise : ∀ l, List.Pairwise (fun a b => b.2 ≤ a.2) (sortDesc l) := by
  intro l
  induction l with
  | nil => simp [sortDesc]
  | cons x xs ih => exact insertDesc_pairwise x (sortDesc xs) ih

lemma insertDesc_shape (x : DocumentNode × ℝ) :
    ∀ l, ∃ l₁ l₂, l = l₁ ++ l₂ ∧ insertDesc x l = l₁ ++ x :: l₂ ∧
      ∀ y ∈ l₁, ¬ y.2 ≤ x.2 := by
  intro l
  induction l with
  | nil => exact ⟨[], [], rfl, rfl, by simp⟩
  | cons y ys ih =>
    rw [insertDesc]
    by_cases h : y.2 ≤ x.2
    · rw [if_pos h]
      exact ⟨[], y :: ys, rfl, rfl, by simp⟩
    · rw [if_neg h]
      obtain ⟨l₁, l₂, he, hi, hall⟩ := ih
      refine ⟨y :: l₁, l₂, by rw [List.cons_append, ← he], by rw [hi, List.cons_append], ?_⟩
      intro z hz
      rcases List.mem_cons.mp hz with hz | hz
      · subst hz; exact h
      · exact hall z hz

lemma sortDesc_filter_key (s : ℝ) :
    ∀ l, (sortDesc l).filter (fun p => decide (p.2 = s)) =
      l.filter (fun p => decide (p.2 = s)) := by
  intro l
  induction l with
  | nil => simp [sortDesc]
  | cons x xs ih =>
    rw [sortDesc]
    obtain ⟨l₁, l₂, he, hi, hall⟩ := insertDesc_shape x (sortDesc xs)
    rw [hi, List.filter_append, List.filter_cons]
    have hfil₁ : l₁.filter (fun p => decide (p.2 = s)) = [] ∨ ¬ x.2 = s := by
      by_cases hx : x.2 = s
      · left
        rw [List.filter_eq_nil_iff]
        intro a ha
        have := hall a ha
        simp only [decide_eq_true_eq]
        intro has
        exact this (by rw [has, hx])
      · right; exact hx
    have hsplit : (sortDesc xs).filter (fun p => decide (p.2 = s)) =
        l₁.filter (fun p => decide (p.2 = s)) ++ l₂.filter (fun p => decide (p.2 = s)) := by
      rw [he, List.filter_append]
    by_cases hx : x.2 = s
    · rcases hfil₁ with hf | hf
      · rw [if_pos (by simp [hx])]
        rw [List.filter_cons, if_pos (by simp [hx])]
        rw [hf]
        have : l₂.filter (fun p => decide (p.2 = s)) =
            xs.filter (fun p => decide (p.2 = s)) := by
          have h2 := ih
          rw [hsplit, hf] at h2
          simpa using h2
        rw [this]
        rfl
      · exact absurd hx hf
    · rw [if_neg (by simp [hx])]
      rw [List.filter_cons, if_neg (by simp [hx])]
      rw [← ih, hsplit]

lemma mem_similarity_candidates (qe : List ℚ) (tree : DocumentTree)
    (threshold : ℝ) (r : DocumentNode × ℝ)
    (hr : r ∈ similarity_candidates qe tree threshold) :
    threshold ≤ r.2 ∧ ∃ x xs, r.1.embedding = some (x :: xs) ∧
      r.2 = compute_similarity qe (x :: xs) := by
  obtain ⟨n, hn, hfn⟩ := List.mem_filterMap.mp hr
  rcases hemb : n.embedding with _ | e
  · rw [hemb] at hfn
    simp at hfn
  · cases e with
    | nil =>
      rw [hemb] at hfn
      simp at hfn
    | cons x xs =>
      rw [hemb] at hfn
      by_cases ht : threshold ≤ compute_similarity qe (x :: xs)
      · simp only [if_pos ht, Option.some.injEq] at hfn
        subst hfn
        exact ⟨ht, x, xs, hemb, rfl⟩
      · simp only [if_neg ht] at hfn
        simp at hfn

/-- Claim C6: for every query vector, tree, `top_k` and threshold, the list
returned by `find_similar_nodes` is sorted by descending similarity, never
longer than `top_k`, contains no result below the threshold, draws only
from nodes carrying a non-absent (truthy) embedding — each paired with its
cosine similarity — and entries with exactly equal similarity keep the
candidate enumeration order (the results at any fixed similarity value form
a sublist of the candidate sequence at that value). -/
theorem find_similar_nodes_ranked (qe : List ℚ) (tree : DocumentTree)
    (top_k : Nat) (threshold : ℝ) :
    (find_similar_nodes qe tree top_k threshold).length ≤ top_k ∧
    List.Pairwise (fun a b => b.2 ≤ a.2) (find_similar_nodes qe tree top_k threshold) ∧
    (∀ r ∈ find_similar_nodes qe tree top_k threshold, threshold ≤ r.2) ∧
    (∀ r ∈ find_similar_nodes qe tree top_k threshold,
      ∃ x xs, r.1.embedding = some (x :: xs) ∧
        r.2 = compute_similarity qe (x :: xs)) ∧
    (∀ s : ℝ, ((find_similar_nodes qe tree top_k threshold).filter
        (fun p => decide (p.2 = s))).Sublist
      ((similarity_candidates qe tree threshold).filter
        (fun p => decide (p.2 = s)))) := by
  by_cases hq : qe = []
  · refine ⟨?_, ?_, ?_, ?_, ?_⟩ <;>
      simp [find_similar_nodes, hq]
  · have hres : find_similar_nodes qe tree top_k threshold =
        (sortDesc (similarity_candidates qe tree threshold)).take top_k := by
      rw [find_similar_nodes, if_neg hq]
    have hmem : ∀ r ∈ find_similar_nodes qe tree top_k threshold,
        r ∈ similarity_candidates qe tree threshold := by
      intro r hrmem
      rw [hres] at hrmem
      have h1 := (List.take_sublist top_k _).subset hrmem
      exact (mem_sortDesc r _).mp h1
    refine ⟨?_, ?_, ?_, ?_, ?_⟩
    · rw [hres, List.length_take]
      exact Nat.min_le_left _ _
    · rw [hres]
      exact List.Pairwise.sublist (List.take_sublist _ _) (sortDesc_pairwise _)
    · intro r hrmem
      exact (mem_similarity_candidates qe tree threshold r (hmem r hrmem)).1
    · intro r hrmem
      exact (mem_similarity_candidates qe tree threshold r (hmem r hrmem)).2
    · intro s
      rw [hres]
      have h1 := List.Sublist.filter (fun p => decide (p.2 = s))
        (List.take_sublist top_k (sortDesc (similarity_candidates qe tree threshold)))
      rw [sortDesc_filter_key s] at h1
      exact h1

/-- The single-node tree used to witness C6. -/
def simNode : DocumentNode :=
  { id := 1, content := "c", summary := "", embedding := some [1],
    node_type := NodeType.leaf, parent_id := none, children_ids := [],
    document_id := "d", level := 1, page_start := none, page_end := none,
    meta_char_count := none, meta_page_count := none, meta_child_count := none,
    meta_total_pages := none, meta_is_synthetic_root := false }

/-- The tree holding `simNode`. -/
def simTree : DocumentTree := ⟨"d", "", [simNode], some 1⟩

lemma compute_similarity_ones : compute_similarity [1] [1] = 1 := by
  rw [compute_similarity, if_neg (by simp)]
  have hs : sumSq [1] = 1 := by norm_num [sumSq]
  have hd : dotProd [1] [1] = 1 := by norm_num [dotProd]
  rw [hs, hd]
  norm_num

lemma find_similar_nodes_eval :
    find_similar_nodes [1] simTree 5 0 = [(simNode, 1)] := by
  rw [find_similar_nodes, if_neg (by simp)]
  have hc : similarity_candidates [1] simTree 0 = [(simNode, 1)] := by
    rw [similarity_candidates]
    show List.filterMap _ [simNode] = _
    rw [List.filterMap_cons, List.filterMap_nil]
    have hemb : simNode.embedding = some [1] := rfl
    rw [hemb]
    simp only [compute_similarity_ones]
    rw [if_pos (by norm_num)]
  rw [hc]
  rw [sortDesc, sortDesc, insertDesc]
  rfl

/-- Witness for C6: the ranking theorem applied to the single-node tree,
with the membership hypothesis discharged at the concrete result. -/
theorem find_similar_nodes_ranked_witness :
    (find_similar_nodes [1] simTree 5 0).length ≤ 5 ∧ (0 : ℝ) ≤ 1 := by
  have h := find_similar_nodes_ranked [1] simTree 5 0
  refine ⟨h.1, ?_⟩
  have hm : (simNode, (1 : ℝ)) ∈ find_similar_nodes [1] simTree 5 0 := by
    rw [find_similar_nodes_eval]
    exact List.mem_singleton.mpr rfl
  exact h.2.2.1 (simNode, (1 : ℝ)) hm

end Velociraptor
